import Mathlib

/-!
Verification of the rock-paper-scissors-lizard-spock game servers
(`hw3/spock_server.c`, the N-player server, and `hw5/Wu/spock_server.c`,
the two-player variant) against their design specification.

The C sources are shallowly embedded: the move enumeration, the `beats`
relation, the winner-determination engine, the message parsing in the
round loop, and the round/game loops themselves become Lean functions.
`MOVE_INVALID` (the "unset" move slot) is modelled with `Option Move`
(`none` = `MOVE_INVALID`).
-/

namespace Spock

/-- The five moves of the game (`Move` enum in both servers, without the
`MOVE_INVALID` sentinel, which is modelled by `Option.none`). -/
inductive Move
  | rock
  | paper
  | scissors
  | lizard
  | spock
deriving DecidableEq, Repr, Fintype

/-- Function `beats` from `hw3/spock_server.c`: returns `true` iff `m1` beats `m2`,
translated clause for clause from the C condition. -/
def beats (m1 m2 : Move) : Bool :=
  (m1 == .paper && (m2 == .rock || m2 == .spock)) ||
  (m1 == .scissors && (m2 == .paper || m2 == .lizard)) ||
  (m1 == .spock && (m2 == .scissors || m2 == .rock)) ||
  (m1 == .rock && (m2 == .scissors || m2 == .lizard)) ||
  (m1 == .lizard && (m2 == .spock || m2 == .paper))

/-- Function `beats` from `hw5/Wu/spock_server.c`, translated clause for clause
from its own if-chain. -/
def wu_beats (m1 m2 : Move) : Bool :=
  if m1 == .rock && (m2 == .scissors || m2 == .lizard) then true
  else if m1 == .paper && (m2 == .rock || m2 == .spock) then true
  else if m1 == .scissors && (m2 == .paper || m2 == .lizard) then true
  else if m1 == .lizard && (m2 == .paper || m2 == .spock) then true
  else if m1 == .spock && (m2 == .rock || m2 == .scissors) then true
  else false

/-- Function `char_to_move` from `hw3/spock_server.c`: maps a character to a move,
`none` standing for `MOVE_INVALID`. Both cases are listed explicitly as in
the C switch. -/
def char_to_move (c : Char) : Option Move :=
  match c with
  | 'R' | 'r' => some .rock
  | 'P' | 'p' => some .paper
  | 'S' | 's' => some .scissors
  | 'L' | 'l' => some .lizard
  | 'K' | 'k' => some .spock
  | _ => none

/-- Function `char_to_move` from `hw5/Wu/spock_server.c`: applies `toupper` first,
then switches on the upper-case character. -/
def wu_char_to_move (c : Char) : Option Move :=
  match c.toUpper with
  | 'R' => some .rock
  | 'P' => some .paper
  | 'S' => some .scissors
  | 'L' => some .lizard
  | 'K' => some .spock
  | _ => none

/-- Function `move_to_string` from `hw3/spock_server.c`; the default branch prints
`Invalid`, which is the `none` case here. -/
def move_to_string : Option Move → String
  | some .rock => "Rock"
  | some .paper => "Paper"
  | some .scissors => "Scissors"
  | some .lizard => "Lizard"
  | some .spock => "Spock"
  | none => "Invalid"

/-- Function `move_to_char` from `hw5/Wu/spock_server.c` (`"RPSLK"[m]`). -/
def move_to_char : Move → Char
  | .rock => 'R'
  | .paper => 'P'
  | .scissors => 'S'
  | .lizard => 'L'
  | .spock => 'K'

/-- The inner `j` loop of `determine_multiplayer_winners` in
`hw3/spock_server.c`, for the fixed participant `i` holding move `mi`.
`j` is the index of the head of the remaining list, `acc` is the
`i_beats_any` accumulator; the result is `(i_is_beaten, i_beats_any)`.
The loop `break`s as soon as some opponent beats `mi`. -/
def innerScan (mi : Move) (i : Nat) : Nat → List (Option Move) → Bool → Bool × Bool
  | _, [], acc => (false, acc)
  | j, mo :: rest, acc =>
    if j = i then innerScan mi i (j + 1) rest acc
    else
      match mo with
      | none => innerScan mi i (j + 1) rest acc
      | some mj =>
        if beats mj mi then (true, acc)
        else innerScan mi i (j + 1) rest (acc || beats mi mj)

/-- One iteration of the outer `i` loop of `determine_multiplayer_winners`:
participant `i` is marked dominant iff its slot is set, it is not beaten by
any other active participant, and it beats at least one of them. -/
def isDominant (moves : List (Option Move)) (i : Nat) : Bool :=
  match moves[i]? with
  | some (some mi) =>
    let p := innerScan mi i 0 moves false
    !p.1 && p.2
  | _ => false

/-- Function `determine_multiplayer_winners` from `hw3/spock_server.c`: the
ascending list of indices of participants holding a dominant move
(the C code fills `winners[]` by scanning `i = 0 .. numPlayers-1`). -/
def determine_multiplayer_winners (moves : List (Option Move)) : List Nat :=
  (List.range moves.length).filter (fun i => isDominant moves i)

/-- The specification's notion of dominance, written from the spec text:
participant `i` is active, no other active participant's move beats `i`'s
move, and `i`'s move beats at least one other active participant's move. -/
def dominantSpec (moves : List (Option Move)) (i : Nat) : Prop :=
  ∃ mi, moves[i]? = some (some mi) ∧
    (∀ j mj, j ≠ i → moves[j]? = some (some mj) → beats mj mi = false) ∧
    (∃ j mj, j ≠ i ∧ moves[j]? = some (some mj) ∧ beats mi mj = true)

/-- Score update of the winning players in `handle_game`
(`scores[winners[w]]++` for each listed winner). -/
def incrementScores (scores : List Nat) (winners : List Nat) : List Nat :=
  winners.foldl (fun s w => s.set w (s.getD w 0 + 1)) scores

/-- The `RESULT:<winners>:<moves>:<scores>` message built in `handle_game`:
winners are 1-based and comma-joined, moves are printed with
`move_to_string`, scores in participant order. -/
def result_msg (winners : List Nat) (moves : List (Option Move)) (scores : List Nat) : String :=
  "RESULT:" ++ String.intercalate (",") (winners.map (fun w => toString (w + 1)))
    ++ ":" ++ String.intercalate (",") (moves.map move_to_string)
    ++ ":" ++ String.intercalate (",") (scores.map toString)

/-- Resolution step of `handle_game` once all moves are in: compute the
winners, credit them, and build the broadcast message. -/
def resolve_round (moves : List (Option Move)) (scores : List Nat) : List Nat × String :=
  let winners := determine_multiplayer_winners moves
  let scores' := incrementScores scores winners
  (scores', result_msg winners moves scores')

/-- One `recv` from a channel: either an orderly close or error (`n <= 0`
in the C code) or a chunk of bytes. -/
inductive ReadResult
  | closed
  | data (buf : List Char)
deriving DecidableEq, Repr

/-- The command variants decoded from one inbound read. -/
inductive Command
  | quit
  | reset
  | move (m : Move)
  | unrecognized
deriving DecidableEq, Repr

/-- The inline command parsing of `handle_game` in `hw3/spock_server.c`:
`strncmp` prefix checks for `QUIT`, `RESET` and `MOVE:` in that order,
then `char_to_move(buffer[5])`; `buffer[5]` is the NUL terminator when
the read carried only `MOVE:`, so it maps to no move. A `MOVE:` read with
an unrecognized letter and an unknown command are both no-ops for the
round state, so both are `unrecognized` here. -/
def parse_command (buf : List Char) : Command :=
  if "QUIT".toList.isPrefixOf buf then .quit
  else if "RESET".toList.isPrefixOf buf then .reset
  else if "MOVE:".toList.isPrefixOf buf then
    match (buf.drop 5).head? with
    | some c =>
      match char_to_move c with
      | some m => .move m
      | none => .unrecognized
    | none => .unrecognized
  else .unrecognized

/-- Mutable state of one collection loop iteration in `handle_game`:
the score array, the per-round move slots and `moves_received`. -/
structure CollectSt where
  scores : List Nat
  moves : List (Option Move)
  cnt : Nat
deriving DecidableEq, Repr

/-- Result of processing the ready channels of one `select` wake-up. -/
inductive BatchRes
  | quit
  | reset (scores : List Nat)
  | cont (st : CollectSt)
deriving DecidableEq, Repr

/-- The inner `for` loop of `handle_game` over the ready channels of one
wake-up, in ascending participant order (the order of the batch list):
a closed channel or a `QUIT` ends the session, a `RESET` zeroes all
scores and ends the round, a first valid move fills the sender's empty
slot and bumps `moves_received`, and duplicate or unrecognized input is
dropped. The loop `break`s on `QUIT`/`RESET`/close. -/
def process_batch (st : CollectSt) : List (Nat × ReadResult) → BatchRes
  | [] => .cont st
  | (i, r) :: rest =>
    match r with
    | .closed => .quit
    | .data buf =>
      match parse_command buf with
      | .quit => .quit
      | .reset => .reset (st.scores.map (fun _ => 0))
      | .move m =>
        if st.moves[i]? = some none then
          process_batch { st with moves := st.moves.set i (some m), cnt := st.cnt + 1 } rest
        else process_batch st rest
      | .unrecognized => process_batch st rest

/-- How the collection loop of a round ends: session-ending `QUIT` or
close, a `RESET`, all moves collected, or the event stream ran dry while
still collecting (the `select` would block indefinitely). -/
inductive CollectOutcome
  | quit
  | reset (scores : List Nat)
  | collected (st : CollectSt)
  | blocked (st : CollectSt)
deriving DecidableEq, Repr

/-- The `while (moves_received < numPlayers && !round_over)` loop of
`handle_game`: consume `select` wake-ups until all moves are in or the
round is cut short. -/
def collect_loop (n : Nat) (st : CollectSt) : List (List (Nat × ReadResult)) → CollectOutcome
  | [] => if n ≤ st.cnt then .collected st else .blocked st
  | b :: bs =>
    if n ≤ st.cnt then .collected st
    else
      match process_batch st b with
      | .quit => .quit
      | .reset sc => .reset sc
      | .cont st' => collect_loop n st' bs

/-- How one iteration of the outer round loop of `handle_game` ends. -/
inductive RoundOutcome
  | ended
  | continued (scores : List Nat)
  | blocked
deriving DecidableEq, Repr

/-- One iteration of the outer `while (1)` loop of `handle_game`: move
slots start empty, the collection loop runs, then either the session ends
with a `QUIT` broadcast, or the round was reset (zeroed scores carry
over, a `RESET` was broadcast), or all moves are in and the round
resolves with a `RESULT` broadcast. The returned list holds the
broadcast messages of this round in order. -/
def play_round (n : Nat) (scores : List Nat) (batches : List (List (Nat × ReadResult))) :
    RoundOutcome × List String :=
  match collect_loop n ⟨scores, List.replicate n none, 0⟩ batches with
  | .quit => (.ended, ["QUIT"])
  | .reset sc => (.continued sc, ["RESET"])
  | .collected st =>
    let winners := determine_multiplayer_winners st.moves
    let sc := incrementScores st.scores winners
    (.continued sc, [result_msg winners st.moves sc])
  | .blocked _ => (.blocked, [])

/-- The outer round loop of `handle_game`: play rounds until a session
end, threading the scores; the result is the full broadcast trace. -/
def run_game (n : Nat) (scores : List Nat) :
    List (List (List (Nat × ReadResult))) → List String
  | [] => []
  | bs :: rest =>
    match play_round n scores bs with
    | (.ended, msgs) => msgs
    | (.blocked, msgs) => msgs
    | (.continued sc, msgs) => msgs ++ run_game n sc rest

/-- An event that cuts the collection loop short: a closed channel, a
`QUIT`, or a `RESET`. -/
def isSpecial (ev : Nat × ReadResult) : Bool :=
  match ev.2 with
  | .closed => true
  | .data buf =>
    match parse_command buf with
    | .quit => true
    | .reset => true
    | _ => false

/-- An event equivalent to the sender quitting: a closed channel (zero
read or error) or a `QUIT` command. -/
def isQuitEvent (ev : Nat × ReadResult) : Bool :=
  match ev.2 with
  | .closed => true
  | .data buf =>
    match parse_command buf with
    | .quit => true
    | _ => false

/-- Constant `MAX_PLAYERS` from `hw3/spock_server.c`. -/
def MAX_PLAYERS : Nat := 5

/-- Outcome of the argument-checking prefix of `main` in
`hw3/spock_server.c`: both error cases print to stderr and `exit(1)`
before the listening socket is created and before any `accept`. -/
inductive MainResult
  | usageError
  | rangeError
  | started (numPlayers : Int)
deriving DecidableEq, Repr

/-- The argument validation at the top of `main` in `hw3/spock_server.c`:
`argc` must be 3 and `numPlayers` (as parsed by `atoi`) must satisfy
`1 <= numPlayers <= MAX_PLAYERS`, else the process exits non-zero. -/
def main_argcheck (argc : Nat) (numPlayers : Int) : MainResult :=
  if argc ≠ 3 then .usageError
  else if numPlayers < 1 || numPlayers > (MAX_PLAYERS : Int) then .rangeError
  else .started numPlayers

/-- A message sent to the client by the two-player server
`hw5/Wu/spock_server.c`, kept structured; `result` carries the two move
characters and both scores of `RESULT:<p1>:<p2>:<s1>:<s2>`. -/
inductive WuMsg
  | info (s : String)
  | quit
  | reset
  | result (c1 c2 : Char) (s0 s1 : Nat)
deriving DecidableEq, Repr

/-- State of the two-player server loop: both scores and the round
counter. -/
structure WuSt where
  s0 : Nat
  s1 : Nat
  round : Nat
deriving DecidableEq, Repr

/-- One wake-up of the `select` in the Wu server loop: either local
stdin input is ready (one character `c`; `resp` is the client's reply
that a subsequent `recv` would obtain), or only the client channel is
ready (the loop body reads nothing in that case). -/
inductive WuEvent
  | localOnly (c : Char) (resp : ReadResult)
  | clientOnly
deriving DecidableEq, Repr

/-- One iteration of the `while (1)` loop of `main` in
`hw5/Wu/spock_server.c`, translated branch for branch: the round-start
`INFO` is sent, then local input is handled (`Q` quits, `T` resets, a
valid move triggers a `recv` of the client command and possibly a round
resolution with `RESULT`), and `round++` runs exactly on the paths that
do not `break` or `continue`. `none` as first component means the loop
was left. -/
def wu_step (st : WuSt) (ev : WuEvent) : Option WuSt × List WuMsg :=
  let info0 : WuMsg := .info ("INFO:Starting Round " ++ toString st.round ++
    ". Score P1:" ++ toString st.s0 ++ " P2:" ++ toString st.s1 ++ "\n\n")
  match ev with
  | .clientOnly => (some { st with round := st.round + 1 }, [info0])
  | .localOnly c resp =>
    if c = 'Q' then (none, [info0, .quit])
    else if c = 'T' then (some { st with s0 := 0, s1 := 0 }, [info0, .reset])
    else
      match wu_char_to_move c with
      | none => (some st, [info0])
      | some m1 =>
        let info1 : WuMsg := .info ("INFO:Player1 has made a choice. Your turn.\n")
        match resp with
        | .closed => (none, [info0, info1])
        | .data buf =>
          if "QUIT".toList.isPrefixOf buf then (none, [info0, info1])
          else if "RESET".toList.isPrefixOf buf then
            (some { st with s0 := 0, s1 := 0 }, [info0, info1])
          else
            match (if "MOVE:".toList.isPrefixOf buf then
                match (buf.drop 5).head? with
                | some c2 => wu_char_to_move c2
                | none => none
              else none) with
            | none => (some st, [info0, info1])
            | some m2 =>
              let w1 := wu_beats m1 m2
              let w2 := wu_beats m2 m1
              let s0' := if w1 && !w2 then st.s0 + 1 else st.s0
              let s1' := if w2 && !w1 then st.s1 + 1 else st.s1
              (some { s0 := s0', s1 := s1', round := st.round + 1 },
                [info0, info1, .result (move_to_char m1) (move_to_char m2) s0' s1'])

/-- Whether a Wu server message is a `RESULT`. -/
def isResultMsg : WuMsg → Bool
  | .result _ _ _ _ => true
  | _ => false

end Spock

namespace Spock

/-- A move never beats itself (case check on the five moves). -/
lemma beats_self (m : Move) : beats m m = false := by cases m <;> rfl

/-- Splitting an indexed existential over a cons cell: the witness is
either the head (index `j`) or lies in the tail (indices from `j + 1`). -/
lemma exists_cons_shift (P : Move → Prop) (mo : Option Move) (rest : List (Option Move))
    (i j : Nat) :
    (∃ k mj, (mo :: rest)[k]? = some (some mj) ∧ j + k ≠ i ∧ P mj) ↔
      ((∃ mjh, mo = some mjh ∧ j ≠ i ∧ P mjh) ∨
        (∃ k mj, rest[k]? = some (some mj) ∧ (j + 1) + k ≠ i ∧ P mj)) := by
  constructor
  · rintro ⟨k, mj, hget, hne, hp⟩
    cases k with
    | zero =>
      rw [List.getElem?_cons_zero] at hget
      exact Or.inl ⟨mj, Option.some.inj hget, by simpa using hne, hp⟩
    | succ k =>
      exact Or.inr ⟨k, mj, by simpa using hget, by omega, hp⟩
  · rintro (⟨mjh, rfl, hne, hp⟩ | ⟨k, mj, hget, hne, hp⟩)
    · exact ⟨0, mjh, by simp, by simpa using hne, hp⟩
    · exact ⟨k + 1, mj, by simpa using hget, by omega, hp⟩

/-- First component of `innerScan` (the `i_is_beaten` flag): it is set iff
some other active participant's move beats `mi`, independently of the
accumulator and of the early `break`. -/
lemma innerScan_fst_iff (mi : Move) (i : Nat) (l : List (Option Move)) :
    ∀ (j : Nat) (acc : Bool),
      (innerScan mi i j l acc).1 = true ↔
        ∃ k mj, l[k]? = some (some mj) ∧ j + k ≠ i ∧ beats mj mi = true := by
  induction l with
  | nil => intro j acc; simp [innerScan]
  | cons mo rest ih =>
    intro j acc
    rw [exists_cons_shift]
    by_cases hj : j = i
    · subst hj
      rw [show innerScan mi j j (mo :: rest) acc = innerScan mi j (j + 1) rest acc from by
        simp [innerScan]]
      rw [ih (j + 1) acc]
      simp
    · cases mo with
      | none =>
        rw [show innerScan mi i j (none :: rest) acc = innerScan mi i (j + 1) rest acc from by
          simp [innerScan, hj]]
        rw [ih (j + 1) acc]
        simp
      | some mj0 =>
        by_cases hb : beats mj0 mi = true
        · rw [show innerScan mi i j (some mj0 :: rest) acc = (true, acc) from by
            simp [innerScan, hj, hb]]
          simp only [true_iff]
          exact Or.inl ⟨mj0, rfl, hj, hb⟩
        · rw [show innerScan mi i j (some mj0 :: rest) acc =
              innerScan mi i (j + 1) rest (acc || beats mi mj0) from by
            simp [innerScan, hj, hb]]
          rw [ih (j + 1) (acc || beats mi mj0)]
          simp [hb]

/-- Second component of `innerScan` (the `i_beats_any` flag): when the
scan was not cut short by a beating opponent, it accumulates whether `mi`
beats some other active participant's move. -/
lemma innerScan_snd_iff (mi : Move) (i : Nat) (l : List (Option Move)) :
    ∀ (j : Nat) (acc : Bool), (innerScan mi i j l acc).1 = false →
      ((innerScan mi i j l acc).2 = true ↔
        (acc = true ∨ ∃ k mj, l[k]? = some (some mj) ∧ j + k ≠ i ∧ beats mi mj = true)) := by
  induction l with
  | nil => intro j acc _; simp [innerScan]
  | cons mo rest ih =>
    intro j acc hfst
    rw [exists_cons_shift]
    by_cases hj : j = i
    · subst hj
      rw [show innerScan mi j j (mo :: rest) acc = innerScan mi j (j + 1) rest acc from by
        simp [innerScan]] at hfst ⊢
      rw [ih (j + 1) acc hfst]
      simp
    · cases mo with
      | none =>
        rw [show innerScan mi i j (none :: rest) acc = innerScan mi i (j + 1) rest acc from by
          simp [innerScan, hj]] at hfst ⊢
        rw [ih (j + 1) acc hfst]
        simp
      | some mj0 =>
        by_cases hb : beats mj0 mi = true
        · rw [show innerScan mi i j (some mj0 :: rest) acc = (true, acc) from by
            simp [innerScan, hj, hb]] at hfst
          simp at hfst
        · rw [show innerScan mi i j (some mj0 :: rest) acc =
              innerScan mi i (j + 1) rest (acc || beats mi mj0) from by
            simp [innerScan, hj, hb]] at hfst ⊢
          rw [ih (j + 1) (acc || beats mi mj0) hfst]
          simp only [Bool.or_eq_true]
          constructor
          · rintro ((h | h) | h)
            · exact Or.inl h
            · exact Or.inr (Or.inl ⟨mj0, rfl, hj, h⟩)
            · exact Or.inr (Or.inr h)
          · rintro (h | (⟨mjh, hmo, -, hp⟩ | h))
            · exact Or.inl (Or.inl h)
            · cases Option.some.inj hmo
              exact Or.inl (Or.inr hp)
            · exact Or.inr h

/-- The dominance flag computed by the engine agrees with the
specification's dominance predicate. -/
lemma isDominant_iff (moves : List (Option Move)) (i : Nat) :
    isDominant moves i = true ↔ dominantSpec moves i := by
  unfold isDominant dominantSpec
  cases h : moves[i]? with
  | none => simp [h]
  | some mo =>
    cases mo with
    | none => simp [h]
    | some mi =>
      simp only [h, Option.some.injEq, exists_eq_left', Bool.and_eq_true, Bool.not_eq_true']
      constructor
      · rintro ⟨hfst, hsnd⟩
        refine ⟨?_, ?_⟩
        · intro j mj hji hget
          rcases Bool.eq_false_or_eq_true (beats mj mi) with hcb | hcb
          · have : (innerScan mi i 0 moves false).1 = true :=
              (innerScan_fst_iff mi i moves 0 false).mpr ⟨j, mj, hget, by omega, hcb⟩
            rw [this] at hfst
            exact absurd hfst (by simp)
          · exact hcb
        · have := (innerScan_snd_iff mi i moves 0 false hfst).mp hsnd
          rcases this with h | ⟨k, mj, hget, hki, hb⟩
          · exact absurd h (by simp)
          · exact ⟨k, mj, by omega, hget, hb⟩
      · rintro ⟨hall, k, mj, hki, hget, hb⟩
        have hfst : (innerScan mi i 0 moves false).1 = false := by
          rcases Bool.eq_false_or_eq_true (innerScan mi i 0 moves false).1 with h | h
          · obtain ⟨k', mj', hget', hki', hb'⟩ := (innerScan_fst_iff mi i moves 0 false).mp h
            have := hall k' mj' (by omega) hget'
            rw [this] at hb'
            exact absurd hb' (by simp)
          · exact h
        refine ⟨hfst, ?_⟩
        exact (innerScan_snd_iff mi i moves 0 false hfst).mpr
          (Or.inr ⟨k, mj, hget, by omega, hb⟩)

/-- C1: the winner engine returns exactly the ascending-ordered set of
dominant participant indices: the output is strictly increasing, an index
is listed iff it satisfies the specification's dominance predicate, and
in particular the output is empty both when all active participants play
the same move and for the cyclic vector `[Rock, Paper, Scissors]`. -/
theorem winners_exactly_dominant :
    ∀ moves : List (Option Move),
      List.Pairwise (· < ·) (determine_multiplayer_winners moves) ∧
      (∀ i, i ∈ determine_multiplayer_winners moves ↔ dominantSpec moves i) ∧
      (∀ n (m : Move), determine_multiplayer_winners (List.replicate n (some m)) = []) ∧
      determine_multiplayer_winners [some .rock, some .paper, some .scissors] = [] := by
  have hmem : ∀ moves i, i ∈ determine_multiplayer_winners moves ↔ dominantSpec moves i := by
    intro moves i
    unfold determine_multiplayer_winners
    rw [List.mem_filter, List.mem_range, isDominant_iff]
    constructor
    · rintro ⟨-, h⟩
      exact h
    · intro h
      refine ⟨?_, h⟩
      obtain ⟨mi, hget, -⟩ := h
      obtain ⟨hlt, -⟩ := List.getElem?_eq_some.mp hget
      exact hlt
  intro moves
  refine ⟨?_, hmem moves, ?_, ?_⟩
  · exact (List.pairwise_lt_range _).filter _
  · intro n m
    rw [List.eq_nil_iff_forall_not_mem]
    intro i hi
    obtain ⟨mi, hget, -, j, mj, hji, hgetj, hb⟩ := (hmem _ i).mp hi
    rw [List.getElem?_replicate] at hget hgetj
    split at hget
    · cases Option.some.inj hget
      split at hgetj
      · cases Option.some.inj hgetj
        rw [beats_self] at hb
        exact absurd hb (by simp)
      · exact absurd hgetj (by simp)
    · exact absurd hget (by simp)
  · decide

/-- C2: the beats relation of the two servers is one and the same
tournament: both definitions agree, a move never beats itself, for
distinct moves exactly one direction beats (stated as: the exclusive-or
of the two directions is exactly distinctness), and every move beats
exactly two moves and is beaten by exactly two moves. -/
theorem beats_is_tournament :
    (∀ a b : Move, wu_beats a b = beats a b) ∧
    (∀ m : Move, beats m m = false) ∧
    (∀ a b : Move, ((beats a b).xor (beats b a)) = decide (a ≠ b)) ∧
    (∀ m : Move, ((Finset.univ.filter (fun x => beats m x = true)).card = 2 ∧
      (Finset.univ.filter (fun x => beats x m = true)).card = 2)) := by
  refine ⟨by decide, by decide, by decide, by decide⟩

/-- C4: on a two-entry move vector the N-ary winner engine coincides with
the classical two-player rule: the dominant set is `[i]` iff participant
`i`'s move beats the other's, and it is empty iff neither beats the
other. -/
theorem two_player_reduction :
    ∀ m0 m1 : Move,
      (determine_multiplayer_winners [some m0, some m1] = [0] ↔ beats m0 m1 = true) ∧
      (determine_multiplayer_winners [some m0, some m1] = [1] ↔ beats m1 m0 = true) ∧
      (determine_multiplayer_winners [some m0, some m1] = [] ↔
        (beats m0 m1 = false ∧ beats m1 m0 = false)) := by
  decide

/-- Processing a batch never changes the scores along the `cont` path:
only `RESET` touches the score array inside the collection loop. -/
lemma process_batch_cont_scores :
    ∀ (b : List (Nat × ReadResult)) (st st' : CollectSt),
      process_batch st b = .cont st' → st'.scores = st.scores := by
  intro b
  induction b with
  | nil =>
    intro st st' h
    simp only [process_batch, BatchRes.cont.injEq] at h
    rw [← h]
  | cons ev rest ih =>
    intro st st' h
    obtain ⟨i, r⟩ := ev
    cases r with
    | closed => simp [process_batch] at h
    | data buf =>
      cases hp : parse_command buf with
      | quit => simp [process_batch, hp] at h
      | reset => simp [process_batch, hp] at h
      | move m =>
        by_cases hs : st.moves[i]? = some none
        · simp only [process_batch, hp, if_pos hs] at h
          have := ih _ _ h
          exact this
        · simp only [process_batch, hp, if_neg hs] at h
          exact ih _ _ h
      | unrecognized =>
        simp only [process_batch, hp] at h
        exact ih _ _ h

/-- Events that are neither a close, a `QUIT` nor a `RESET` keep the
batch processing going: the loop continues into the remaining events,
with the scores untouched. -/
lemma process_batch_append :
    ∀ (pre : List (Nat × ReadResult)) (st : CollectSt) (evs : List (Nat × ReadResult)),
      (∀ e ∈ pre, isSpecial e = false) →
      ∃ st', process_batch st (pre ++ evs) = process_batch st' evs ∧
        st'.scores = st.scores := by
  intro pre
  induction pre with
  | nil => exact fun st evs _ => ⟨st, rfl, rfl⟩
  | cons ev rest ih =>
    intro st evs h
    have hev : isSpecial ev = false := h ev (List.mem_cons_self _ _)
    have hrest : ∀ e ∈ rest, isSpecial e = false := fun e he => h e (List.mem_cons_of_mem _ he)
    obtain ⟨i, r⟩ := ev
    cases r with
    | closed => simp [isSpecial] at hev
    | data buf =>
      cases hp : parse_command buf with
      | quit => simp [isSpecial, hp] at hev
      | reset => simp [isSpecial, hp] at hev
      | move m =>
        by_cases hs : st.moves[i]? = some none
        · obtain ⟨st', heq, hsc⟩ :=
            ih { st with moves := st.moves.set i (some m), cnt := st.cnt + 1 } evs hrest
          refine ⟨st', ?_, hsc⟩
          rw [List.cons_append]
          simpa [process_batch, hp, hs] using heq
        · obtain ⟨st', heq, hsc⟩ := ih st evs hrest
          refine ⟨st', ?_, hsc⟩
          rw [List.cons_append]
          simpa [process_batch, hp, hs] using heq
      | unrecognized =>
        obtain ⟨st', heq, hsc⟩ := ih st evs hrest
        refine ⟨st', ?_, hsc⟩
        rw [List.cons_append]
        simpa [process_batch, hp] using heq

/-- A closed channel or a `QUIT` ends the batch immediately. -/
lemma process_batch_quit_eq (st : CollectSt) (ev : Nat × ReadResult)
    (rest : List (Nat × ReadResult)) (h : isQuitEvent ev = true) :
    process_batch st (ev :: rest) = .quit := by
  obtain ⟨i, r⟩ := ev
  cases r with
  | closed => rfl
  | data buf =>
    cases hp : parse_command buf with
    | quit => simp [process_batch, hp]
    | reset => simp [isQuitEvent, hp] at h
    | move m => simp [isQuitEvent, hp] at h
    | unrecognized => simp [isQuitEvent, hp] at h

/-- A `RESET` ends the batch immediately with all scores zeroed. -/
lemma process_batch_reset_eq (st : CollectSt) (i : Nat) (buf : List Char)
    (rest : List (Nat × ReadResult)) (h : parse_command buf = .reset) :
    process_batch st ((i, ReadResult.data buf) :: rest) =
      .reset (st.scores.map (fun _ => 0)) := by
  simp [process_batch, h]

/-- A blocked collection loop is still short of moves and has not touched
the scores. -/
lemma collect_loop_blocked_inv :
    ∀ (bs : List (List (Nat × ReadResult))) (n : Nat) (st st' : CollectSt),
      collect_loop n st bs = .blocked st' → st'.cnt < n ∧ st'.scores = st.scores := by
  intro bs
  induction bs with
  | nil =>
    intro n st st' h
    simp only [collect_loop] at h
    by_cases hc : n ≤ st.cnt
    · rw [if_pos hc] at h
      exact absurd h (by simp)
    · rw [if_neg hc] at h
      simp only [CollectOutcome.blocked.injEq] at h
      subst h
      exact ⟨by omega, rfl⟩
  | cons b bs ih =>
    intro n st st' h
    simp only [collect_loop] at h
    by_cases hc : n ≤ st.cnt
    · rw [if_pos hc] at h
      exact absurd h (by simp)
    · rw [if_neg hc] at h
      cases hpb : process_batch st b with
      | quit => simp only [hpb] at h; exact absurd h (by simp)
      | reset sc => simp only [hpb] at h; exact absurd h (by simp)
      | cont st2 =>
        simp only [hpb] at h
        obtain ⟨h1, h2⟩ := ih n st2 st' h
        exact ⟨h1, h2.trans (process_batch_cont_scores b st st2 hpb)⟩

/-- Extending the wake-up stream of a still-collecting round resumes
collection from the blocked state. -/
lemma collect_loop_append :
    ∀ (prior : List (List (Nat × ReadResult))) (n : Nat) (st st' : CollectSt)
      (bs : List (List (Nat × ReadResult))),
      collect_loop n st prior = .blocked st' →
      collect_loop n st (prior ++ bs) = collect_loop n st' bs := by
  intro prior
  induction prior with
  | nil =>
    intro n st st' bs h
    simp only [collect_loop] at h
    by_cases hc : n ≤ st.cnt
    · rw [if_pos hc] at h
      exact absurd h (by simp)
    · rw [if_neg hc] at h
      simp only [CollectOutcome.blocked.injEq] at h
      subst h
      simp
  | cons b prior ih =>
    intro n st st' bs h
    simp only [collect_loop] at h
    by_cases hc : n ≤ st.cnt
    · rw [if_pos hc] at h
      exact absurd h (by simp)
    · rw [if_neg hc] at h
      cases hpb : process_batch st b with
      | quit => simp only [hpb] at h; exact absurd h (by simp)
      | reset sc => simp only [hpb] at h; exact absurd h (by simp)
      | cont st2 =>
        simp only [hpb] at h
        rw [show collect_loop n st ((b :: prior) ++ bs) = collect_loop n st2 (prior ++ bs) from by
          simp [collect_loop, hc, hpb]]
        exact ih n st2 st' bs h

/-- While the round still lacks moves, a wake-up is consumed by the
batch processor. -/
lemma collect_loop_cons_of_lt (n : Nat) (st : CollectSt) (b : List (Nat × ReadResult))
    (bs : List (List (Nat × ReadResult))) (h : st.cnt < n) :
    collect_loop n st (b :: bs) =
      match process_batch st b with
      | .quit => .quit
      | .reset sc => .reset sc
      | .cont st' => collect_loop n st' bs := by
  simp only [collect_loop]
  rw [if_neg (by omega)]

/-- C3: for moves `[Rock, Rock, Scissors]` and all-zero scores the
dominant set is `{0, 1}` (so `{1, 2}` 1-based), both Rock players are
credited, and the broadcast is exactly
`RESULT:1,2:Rock,Rock,Scissors:1,1,0`. -/
theorem rock_rock_scissors_round :
    determine_multiplayer_winners [some .rock, some .rock, some .scissors] = [0, 1] ∧
    incrementScores [0, 0, 0] [0, 1] = [1, 1, 0] ∧
    resolve_round [some .rock, some .rock, some .scissors] [0, 0, 0] =
      ([1, 1, 0], "RESULT:1,2:Rock,Rock,Scissors:1,1,0") := by
  refine ⟨by decide, by decide, ?_⟩
  rfl

/-- C5: a `QUIT` command, zero-length read or read error on any channel,
at any point of a round and regardless of how many moves were already
collected (the quitting event may even follow the last move inside the
same wake-up), ends the whole session: the round's broadcast trace is
exactly the best-effort `QUIT` broadcast, so in particular no `RESULT` is
ever emitted for the interrupted round. -/
theorem quit_terminates_without_result :
    (∀ (n : Nat) (scores : List Nat) (batches : List (List (Nat × ReadResult)))
      (msgs : List String),
      play_round n scores batches = (.ended, msgs) → msgs = ["QUIT"]) ∧
    (∀ (n : Nat) (scores : List Nat) (prior : List (List (Nat × ReadResult)))
      (pre : List (Nat × ReadResult)) (ev : Nat × ReadResult)
      (rest : List (Nat × ReadResult)) (more : List (List (Nat × ReadResult)))
      (st : CollectSt),
      collect_loop n ⟨scores, List.replicate n none, 0⟩ prior = .blocked st →
      (∀ e ∈ pre, isSpecial e = false) →
      isQuitEvent ev = true →
      play_round n scores (prior ++ (pre ++ ev :: rest) :: more) = (.ended, ["QUIT"])) := by
  constructor
  · intro n scores batches msgs h
    cases hc : collect_loop n ⟨scores, List.replicate n none, 0⟩ batches with
    | quit =>
      simp only [play_round, hc, Prod.mk.injEq, true_and] at h
      exact h.symm
    | reset sc => simp [play_round, hc] at h
    | collected st => simp [play_round, hc] at h
    | blocked st => simp [play_round, hc] at h
  · intro n scores prior pre ev rest more st hbl hpre hq
    obtain ⟨hcnt, -⟩ := collect_loop_blocked_inv prior n _ st hbl
    have h1 : process_batch st (pre ++ ev :: rest) = BatchRes.quit := by
      obtain ⟨st2, heq, -⟩ := process_batch_append pre st (ev :: rest) hpre
      rw [heq, process_batch_quit_eq st2 ev rest hq]
    have h2 : collect_loop n st ((pre ++ ev :: rest) :: more) = CollectOutcome.quit := by
      rw [collect_loop_cons_of_lt n st _ more hcnt, h1]
    have h3 : collect_loop n ⟨scores, List.replicate n none, 0⟩
        (prior ++ (pre ++ ev :: rest) :: more) = CollectOutcome.quit := by
      rw [collect_loop_append prior n _ st _ hbl, h2]
    simp [play_round, h3]

/-- C5 witness: with two expected players and no prior traffic, a `QUIT`
read from player 0 ends the session with just the `QUIT` broadcast. -/
theorem quit_terminates_without_result_witness :
    play_round 2 [0, 0] ([] ++ ([] ++ (0, ReadResult.data ("QUIT".toList)) :: []) :: []) =
      (RoundOutcome.ended, ["QUIT"]) :=
  quit_terminates_without_result.2 2 [0, 0] [] [] (0, ReadResult.data ("QUIT".toList)) [] []
    ⟨[0, 0], List.replicate 2 none, 0⟩ (by decide) (by simp) (by decide)

/-- C6: a `RESET` received mid-round zeroes every score, broadcasts
exactly `RESET` (no `RESULT`, no `QUIT`), and the session continues; the
game loop then plays the next round from scratch, and in the concrete
two-round trace a move collected before the `RESET` is discarded: the
next round's `RESULT` is computed only from the fresh moves and the
zeroed scores. -/
theorem reset_restarts_round :
    (∀ (n : Nat) (scores : List Nat) (prior : List (List (Nat × ReadResult)))
      (pre : List (Nat × ReadResult)) (i : Nat) (buf : List Char)
      (rest : List (Nat × ReadResult)) (more : List (List (Nat × ReadResult)))
      (st : CollectSt),
      collect_loop n ⟨scores, List.replicate n none, 0⟩ prior = .blocked st →
      (∀ e ∈ pre, isSpecial e = false) →
      parse_command buf = .reset →
      play_round n scores (prior ++ (pre ++ (i, ReadResult.data buf) :: rest) :: more) =
        (.continued (List.replicate scores.length 0), ["RESET"])) ∧
    (∀ (n : Nat) (scores : List Nat) (bs : List (List (Nat × ReadResult)))
      (rest : List (List (List (Nat × ReadResult)))) (sc : List Nat) (msgs : List String),
      play_round n scores bs = (.continued sc, msgs) →
      run_game n scores (bs :: rest) = msgs ++ run_game n sc rest) ∧
    run_game 2 [5, 7]
      [[[(0, .data ("MOVE:R".toList)), (1, .data ("RESET".toList))]],
        [[(0, .data ("MOVE:P".toList)), (1, .data ("MOVE:R".toList))]]] =
      ["RESET", "RESULT:1:Paper,Rock:1,0"] := by
  refine ⟨?_, ?_, by rfl⟩
  · intro n scores prior pre i buf rest more st hbl hpre hres
    obtain ⟨hcnt, hsc⟩ := collect_loop_blocked_inv prior n _ st hbl
    have h1 : process_batch st (pre ++ (i, ReadResult.data buf) :: rest) =
        BatchRes.reset (List.replicate scores.length 0) := by
      obtain ⟨st2, heq, hsc2⟩ := process_batch_append pre st ((i, ReadResult.data buf) :: rest) hpre
      rw [heq, process_batch_reset_eq st2 i buf rest hres, hsc2, hsc]
      simp
    have h2 : collect_loop n st ((pre ++ (i, ReadResult.data buf) :: rest) :: more) =
        CollectOutcome.reset (List.replicate scores.length 0) := by
      rw [collect_loop_cons_of_lt n st _ more hcnt, h1]
    have h3 : collect_loop n ⟨scores, List.replicate n none, 0⟩
        (prior ++ (pre ++ (i, ReadResult.data buf) :: rest) :: more) =
        CollectOutcome.reset (List.replicate scores.length 0) := by
      rw [collect_loop_append prior n _ st _ hbl, h2]
    simp [play_round, h3]
  · intro n scores bs rest sc msgs h
    simp [run_game, h]

/-- C6 witness: with two players and scores `[5, 7]`, a lone `RESET`
from player 1 yields a continued session with both scores zeroed and a
single `RESET` broadcast. -/
theorem reset_restarts_round_witness :
    play_round 2 [5, 7] ([] ++ ([] ++ (1, ReadResult.data ("RESET".toList)) :: []) :: []) =
      (RoundOutcome.continued (List.replicate ([5, 7] : List Nat).length 0), ["RESET"]) :=
  reset_restarts_round.1 2 [5, 7] [] [] 1 ("RESET".toList) [] []
    ⟨[5, 7], List.replicate 2 none, 0⟩ (by decide) (by simp) (by decide)

/-- C9: a `MOVE` command from a participant whose slot is already filled
this round is a no-op: the batch processing continues exactly as if the
event were absent, so the recorded move, the move count and all scores
are unchanged. -/
theorem duplicate_move_dropped :
    ∀ (st : CollectSt) (i : Nat) (buf : List Char) (m m' : Move)
      (rest : List (Nat × ReadResult)),
      st.moves[i]? = some (some m) →
      parse_command buf = Command.move m' →
      process_batch st ((i, ReadResult.data buf) :: rest) = process_batch st rest := by
  intro st i buf m m' rest hslot hp
  have hns : ¬(st.moves[i]? = some none) := by rw [hslot]; simp
  simp [process_batch, hp, hns]

/-- C9 witness: a second move `MOVE:P` from player 0, who already played
Rock, is dropped. -/
theorem duplicate_move_dropped_witness :
    (([some Move.rock] : List (Option Move))[0]? = some (some Move.rock)) ∧
    parse_command ("MOVE:P".toList) = Command.move Move.paper ∧
    process_batch ⟨[0], [some Move.rock], 1⟩ [(0, ReadResult.data ("MOVE:P".toList))] =
      process_batch ⟨[0], [some Move.rock], 1⟩ [] :=
  ⟨by decide, by decide,
    duplicate_move_dropped ⟨[0], [some Move.rock], 1⟩ 0 ("MOVE:P".toList) Move.rock Move.paper []
      (by decide) (by decide)⟩

/-- C10: with the right argument count, `main` of the multi-player server
rejects exactly the `numPlayers` values outside `1..5` (printing an error
and exiting non-zero before any connection is accepted), and whenever the
server does start, its player count lies in `1..5`. -/
theorem numPlayers_range_enforced :
    (∀ k : Int, main_argcheck 3 k = .rangeError ↔ (k < 1 ∨ 5 < k)) ∧
    (∀ (a : Nat) (k n : Int), main_argcheck a k = .started n → 1 ≤ n ∧ n ≤ 5) := by
  constructor
  · intro k
    unfold main_argcheck MAX_PLAYERS
    simp only [Nat.cast_ofNat]
    rw [if_neg (by omega : ¬(3 : Nat) ≠ 3)]
    by_cases hc : (decide (k < 1) || decide (k > (5 : Int))) = true
    · rw [if_pos hc]
      simp only [Bool.or_eq_true, decide_eq_true_eq] at hc
      simp only [true_iff]
      omega
    · rw [if_neg hc]
      simp only [Bool.or_eq_true, decide_eq_true_eq, not_or] at hc
      constructor
      · intro h
        exact absurd h (by simp)
      · intro h
        omega
  · intro a k n h
    unfold main_argcheck MAX_PLAYERS at h
    simp only [Nat.cast_ofNat] at h
    by_cases h1 : a ≠ 3
    · rw [if_pos h1] at h
      exact absurd h (by simp)
    · rw [if_neg h1] at h
      by_cases h2 : (decide (k < 1) || decide (k > (5 : Int))) = true
      · rw [if_pos h2] at h
        exact absurd h (by simp)
      · rw [if_neg h2] at h
        simp only [MainResult.started.injEq] at h
        subst h
        simp only [Bool.or_eq_true, decide_eq_true_eq, not_or] at h2
        omega

/-- C10 witness: `numPlayers = 6` is rejected, `numPlayers = 3` starts a
session whose player count lies in `1..5`. -/
theorem numPlayers_range_enforced_witness :
    main_argcheck 3 6 = MainResult.rangeError ∧ (1 ≤ (3 : Int) ∧ (3 : Int) ≤ 5) :=
  ⟨(numPlayers_range_enforced.1 6).mpr (Or.inr (by decide)),
    numPlayers_range_enforced.2 3 3 3 (by decide)⟩

/-- C8 counterexample: the input `MOVE:RR` is not of the form `MOVE:`
followed by exactly one letter, yet the parser maps it to the move Rock
rather than to `Unrecognized` — only `buffer[5]` is inspected and
trailing bytes are ignored. -/
theorem parse_trailing_bytes :
    parse_command ("MOVE:RR".toList) = Command.move Move.rock ∧
    Command.move Move.rock ≠ Command.unrecognized := ⟨by decide, by decide⟩

/-- C8 (amended): the parser checks, in order, the prefixes `QUIT`,
`RESET` and `MOVE:`; a `MOVE:` input yields the move named by its sixth
character (case-insensitively one of R, P, S, L, K), regardless of any
further bytes; a `MOVE:` input with no such sixth character, and every
input matching none of the three prefixes, is `Unrecognized`. -/
theorem parse_command_cases :
    ∀ buf : List Char,
      (parse_command buf = Command.quit ↔ ['Q', 'U', 'I', 'T'] <+: buf) ∧
      (parse_command buf = Command.reset ↔
        (¬(['Q', 'U', 'I', 'T'] <+: buf) ∧ ['R', 'E', 'S', 'E', 'T'] <+: buf)) ∧
      (∀ m, parse_command buf = Command.move m ↔
        (¬(['Q', 'U', 'I', 'T'] <+: buf) ∧ ¬(['R', 'E', 'S', 'E', 'T'] <+: buf) ∧
          ['M', 'O', 'V', 'E', ':'] <+: buf ∧
          ∃ c, buf[5]? = some c ∧ char_to_move c = some m)) ∧
      (parse_command buf = Command.unrecognized ↔
        (¬(['Q', 'U', 'I', 'T'] <+: buf) ∧ ¬(['R', 'E', 'S', 'E', 'T'] <+: buf) ∧
          (¬(['M', 'O', 'V', 'E', ':'] <+: buf) ∨
            ∀ c, buf[5]? = some c → char_to_move c = none))) := by
  intro buf
  by_cases hq : ['Q', 'U', 'I', 'T'] <+: buf
  · simp [parse_command, hq]
  · by_cases hr : ['R', 'E', 'S', 'E', 'T'] <+: buf
    · simp [parse_command, hq, hr]
    · by_cases hm : ['M', 'O', 'V', 'E', ':'] <+: buf
      · cases hh : buf[5]? with
        | none => simp [parse_command, hq, hr, hm, hh]
        | some c =>
          cases hc : char_to_move c with
          | none => simp [parse_command, hq, hr, hm, hh, hc]
          | some m0 => simp [parse_command, hq, hr, hm, hh, hc]
      · simp [parse_command, hq, hr, hm]

/-- C7 counterexample: a wake-up on which only the remote channel is
ready (the loop body reads nothing) still executes `round++`: from round
1 the state advances to round 2 although no `RESULT` was produced and
nothing was resolved or reset. -/
theorem wu_round_counter_client_wakeup :
    (wu_step ⟨0, 0, 1⟩ WuEvent.clientOnly).1 = some ⟨0, 0, 2⟩ ∧
    (wu_step ⟨0, 0, 1⟩ WuEvent.clientOnly).2.all (fun m => !(isResultMsg m)) = true :=
  ⟨by decide, by decide⟩

/-- C7 (amended): on every surviving loop iteration of the two-player
server the round counter either advances by one or stays put, and it
advances exactly on the iterations that broadcast a `RESULT` (full
resolution) or on remote-only wake-ups where no local input was ready;
in particular it never advances on a Reset or on any other non-resolving
local path. -/
theorem wu_round_counter :
    ∀ (st : WuSt) (ev : WuEvent) (st' : WuSt) (msgs : List WuMsg),
      wu_step st ev = (some st', msgs) →
      (st'.round = st.round + 1 ∨ st'.round = st.round) ∧
      (st'.round = st.round + 1 ↔
        (ev = WuEvent.clientOnly ∨ ∃ m ∈ msgs, isResultMsg m = true)) := by
  intro st ev st' msgs h
  cases ev with
  | clientOnly =>
    simp only [wu_step, Prod.mk.injEq, Option.some.injEq] at h
    obtain ⟨h1, h2⟩ := h
    subst h1
    subst h2
    exact ⟨Or.inl rfl, by simp⟩
  | localOnly c resp =>
    simp only [wu_step] at h
    by_cases hQ : c = 'Q'
    · rw [if_pos hQ] at h
      exact absurd h (by simp)
    · rw [if_neg hQ] at h
      by_cases hT : c = 'T'
      · rw [if_pos hT] at h
        simp only [Prod.mk.injEq, Option.some.injEq] at h
        obtain ⟨h1, h2⟩ := h
        subst h1
        subst h2
        exact ⟨Or.inr rfl, by simp [isResultMsg]⟩
      · rw [if_neg hT] at h
        cases hm1 : wu_char_to_move c with
        | none =>
          simp only [hm1, Prod.mk.injEq, Option.some.injEq] at h
          obtain ⟨h1, h2⟩ := h
          subst h1
          subst h2
          exact ⟨Or.inr rfl, by simp [isResultMsg]⟩
        | some m1 =>
          simp only [hm1] at h
          cases resp with
          | closed => exact absurd h (by simp)
          | data buf =>
            dsimp only at h
            by_cases hbq : "QUIT".toList.isPrefixOf buf = true
            · rw [if_pos hbq] at h
              exact absurd h (by simp)
            · rw [if_neg hbq] at h
              by_cases hbr : "RESET".toList.isPrefixOf buf = true
              · rw [if_pos hbr] at h
                simp only [Prod.mk.injEq, Option.some.injEq] at h
                obtain ⟨h1, h2⟩ := h
                subst h1
                subst h2
                exact ⟨Or.inr rfl, by simp [isResultMsg]⟩
              · rw [if_neg hbr] at h
                cases hm2 : (if "MOVE:".toList.isPrefixOf buf then
                    match (buf.drop 5).head? with
                    | some c2 => wu_char_to_move c2
                    | none => none
                  else none) with
                | none =>
                  simp only [hm2, Prod.mk.injEq, Option.some.injEq] at h
                  obtain ⟨h1, h2⟩ := h
                  subst h1
                  subst h2
                  exact ⟨Or.inr rfl, by simp [isResultMsg]⟩
                | some m2 =>
                  simp only [hm2, Prod.mk.injEq, Option.some.injEq] at h
                  obtain ⟨h1, h2⟩ := h
                  subst h1
                  subst h2
                  refine ⟨Or.inl rfl, ?_⟩
                  simp [isResultMsg]

/-- C7 witness: the remote-only wake-up from round 1 satisfies the
amended round-counter characterization. -/
theorem wu_round_counter_witness :
    ((WuSt.mk 0 0 2).round = (WuSt.mk 0 0 1).round + 1 ∨
      (WuSt.mk 0 0 2).round = (WuSt.mk 0 0 1).round) ∧
    ((WuSt.mk 0 0 2).round = (WuSt.mk 0 0 1).round + 1 ↔
      (WuEvent.clientOnly = WuEvent.clientOnly ∨
        ∃ m ∈ [WuMsg.info ("INFO:Starting Round 1. Score P1:0 P2:0\n\n")],
          isResultMsg m = true)) :=
  wu_round_counter ⟨0, 0, 1⟩ WuEvent.clientOnly ⟨0, 0, 2⟩
    [WuMsg.info ("INFO:Starting Round 1. Score P1:0 P2:0\n\n")] (by decide)

end Spock
